import Mathlib

/-
  Verification development for logrecycler (src/main.go).

  Shallow embedding conventions:
  * Go strings are Lean `String`s; Go `map[string]string` is an association
    list `List (String × String)` with unique keys, whose list order stands
    for Go's (unspecified, randomized) map iteration order.
  * A compiled `*regexp.Regexp` (external library) is modelled by its
    interface as used in main.go: `SubexpNames()` and
    `FindStringSubmatch` (`find`), the latter returning `none` on no match
    and otherwise the submatch list `[whole, group1, ...]` where a capture
    group that did not participate in the match yields `""` (the
    documented behaviour of Go's string submatch API).
  * `time.Now()` is passed in as the already-formatted timestamp string
    `nowFormatted` plus the current year `nowYear`.
  * The observable effects of `processLine` (serialized record, prometheus
    counter increment, statsd increment) are collected in a result
    structure; a discarded line produces no effect at all.
-/

namespace Logrecycler

/-- Compiled regular expression: the interface of Go `regexp.Regexp` that
main.go uses. `subexpNames` models `SubexpNames()` (entry 0 is always `""`);
`find` models `FindStringSubmatch`, returning `none` on no match and the
submatch list otherwise, with `""` for capture groups that did not
participate in the match. -/
structure Regex where
  subexpNames : List String
  find : String → Option (List String)

/-- Pattern from main.go (one configured rule), after readConfig has compiled
the regex and set `levelSet = (Level ≠ "")`. The Go field `Regex string` is
renamed `RegexStr` because `Regex` is the structure above. `Add` is a Go
`map[string]string`, modelled as an association list (a `nil` map is `[]`). -/
structure Pattern where
  RegexStr : String
  regexParsed : Regex
  Discard : Bool
  Add : List (String × String)
  Level : String
  levelSet : Bool

/-- Config from main.go, after readConfig has filled the derived fields
(`prometheus`, `statsd`, `glogSet`, `timestampKeySet`, `levelKeySet`,
`preprocessSet`, the compiled `preprocessParsed`, and the cached
`prometheusMetricLabels`). In Go, `preprocessParsed` is a nil pointer when
`preprocessSet` is false; here it is a `Regex` value that is never consulted
in that case. -/
structure Config where
  PrometheusPort : String
  prometheus : Bool
  prometheusMetricLabels : List String
  StatsdAddress : String
  StatsdMetric : String
  statsd : Bool
  Glog : String
  glogSet : Bool
  TimestampKey : String
  timestampKeySet : Bool
  LevelKey : String
  levelKeySet : Bool
  MessageKey : String
  Patterns : List Pattern
  Preprocess : String
  preprocessSet : Bool
  preprocessParsed : Regex

/-- Modelled from the spec: the OrderedMap record type; its source file
(ordered_map.go) is not under src/, only its uses in main.go are. Per spec
section 4.1 and the field accesses in main.go, it carries the insertion
order in `keys` and the underlying Go `map[string]string` in `values`,
modelled as an association list with unique keys. -/
structure OrderedMap where
  keys : List String
  values : List (String × String)

/-- Write `k ↦ v` into an association-list map: overwrite the binding in
place if `k` is present, append it otherwise. This is the semantics of a Go
map assignment `m[k] = v`. -/
def mapInsert : List (String × String) → String → String → List (String × String)
  | [], k, v => [(k, v)]
  | (k₁, v₁) :: rest, k, v =>
    if k₁ = k then (k, v) :: rest else (k₁, v₁) :: mapInsert rest k v

/-- Read `k` from an association-list map, `none` when absent. This is the
two-result form `v, ok := m[k]` of a Go map read. -/
def lookupV : List (String × String) → String → Option String
  | [], _ => none
  | (k₁, v₁) :: rest, k => if k₁ = k then some v₁ else lookupV rest k

/-- Read `k` from an association-list map with Go's zero-value semantics:
`m[k]` is `""` when `k` is absent. -/
def mapGet (values : List (String × String)) (k : String) : String :=
  (lookupV values k).getD ""

/-- Modelled from the spec: `NewOrderedMap()` returns an empty record. -/
def NewOrderedMap : OrderedMap := ⟨[], []⟩

/-- Modelled from the spec: `OrderedMap.Set` inserts if the key is absent
(appending it to the insertion order) or overwrites the value in place if it
is present (spec section 4.1). -/
def OrderedMap.set (log : OrderedMap) (k v : String) : OrderedMap :=
  { keys := if (lookupV log.values k).isSome then log.keys else log.keys ++ [k],
    values := mapInsert log.values k v }

/-- Direct assignment to the underlying value map, `log.values[k] = v`, as
done by main.go lines 282, 286, 298 and 312: the insertion-order list is not
updated. -/
def OrderedMap.mapWrite (log : OrderedMap) (k v : String) : OrderedMap :=
  { log with values := mapInsert log.values k v }

/-- Go `unique` (main.go:116): first-occurrence-preserving deduplication.
The Go version tracks the already-seen entries in a set; since that set
always holds exactly the entries of the accumulated slice, membership in the
accumulator is the same test. -/
def unique (input : List String) : List String :=
  input.foldl (fun acc entry => if entry ∈ acc then acc else acc ++ [entry]) []

/-- Go `removeElement` (main.go:129): remove every occurrence of `needle`
while preserving order. -/
def removeElement (haystack : List String) (needle : String) : List String :=
  haystack.filter (fun item => item ≠ needle)

/-- Go `keys` (main.go:140): the keys of a map, in iteration order (the
list order of the modelled map). -/
def keys (mymap : List (String × String)) : List String :=
  mymap.map Prod.fst

/-- Go `prometheusAddCaptures` (main.go:218): append every nonempty subexp
name of the regex to the label list. -/
def prometheusAddCaptures (re : Regex) (labels : List String) : List String :=
  re.subexpNames.foldl (fun ls name => if name ≠ "" then ls ++ [name] else ls) labels

/-- Go `prometheusMetricLabels` (main.go:188): all labels the config can
ever produce — the level key, the preprocess captures, then for every
non-discard rule its captures and its `add` keys, deduplicated, with the
message key removed. (In Go the add-keys append is guarded by `Add != nil`;
appending the keys of an empty map is a no-op, so the guard is dropped.) -/
def prometheusMetricLabels (config : Config) : List String :=
  let labels : List String := []
  let labels := if config.levelKeySet then labels ++ [config.LevelKey] else labels
  let labels :=
    if config.preprocessSet then prometheusAddCaptures config.preprocessParsed labels
    else labels
  let labels := config.Patterns.foldl
    (fun ls pattern =>
      if pattern.Discard then ls
      else prometheusAddCaptures pattern.regexParsed ls ++ keys pattern.Add)
    labels
  removeElement (unique labels) config.MessageKey

/-- Go `prometheusLabelValues` (main.go:228): the value array in schema
order, one entry per cached label, the record's value when present and `""`
otherwise. -/
def prometheusLabelValues (labelMap : List (String × String)) (config : Config) : List String :=
  config.prometheusMetricLabels.map (fun label => (lookupV labelMap label).getD "")

/-- Go `statsdTags` (main.go:242): one `k:v` tag per record entry except the
message key, in map iteration order. -/
def statsdTags (m : List (String × String)) (config : Config) : List String :=
  (m.filter (fun kv => kv.fst ≠ config.MessageKey)).map (fun kv => kv.fst ++ ":" ++ kv.snd)

/-- Body of the loop in Go `storeCaptures` (main.go:335): set a named,
non-zeroth capture group into the record, skip the rest. -/
def capStep (m : List String) (log : OrderedMap) (p : Nat × String) : OrderedMap :=
  if p.fst ≠ 0 ∧ p.snd ≠ "" then log.set p.snd (m.getD p.fst "") else log

/-- Go `storeCaptures` (main.go:335): for every subexp name with index ≠ 0
and nonempty name, `log.Set(name, match[i])`. -/
def storeCaptures (re : Regex) (log : OrderedMap) (m : List String) : OrderedMap :=
  re.subexpNames.enum.foldl (capStep m) log

/-- The indexed named capture groups of a regex: subexp entries with index
different from 0 and a nonempty name. -/
def namedPairs (re : Regex) : List (Nat × String) :=
  re.subexpNames.enum.filter (fun p => decide (p.fst ≠ 0 ∧ p.snd ≠ ""))

/-- The names of the named capture groups of a regex. -/
def namedGroups (re : Regex) : List String :=
  (namedPairs re).map Prod.snd

/-- Go's Perl character class `\s` is exactly `[\t\n\f\r ]`. -/
def isGoSpace (c : Char) : Bool :=
  c = '\t' || c = '\n' || c = '\x0C' || c = '\r' || c = ' '

/-- Consume exactly two digits, returning them as a string. -/
def digit2 : List Char → Option (String × List Char)
  | a :: b :: rest => if a.isDigit && b.isDigit then some (String.mk [a, b], rest) else none
  | _ => none

/-- Consume exactly the given character. -/
def expectChar (c : Char) : List Char → Option (List Char)
  | a :: rest => if a = c then some rest else none
  | [] => none

/-- Consume one or more digits (greedy; the following pattern characters in
glogRegex are never digits, so no backtracking is needed). -/
def digits1 (l : List Char) : Option (List Char) :=
  let ds := l.takeWhile Char.isDigit
  if ds.isEmpty then none else some (l.drop ds.length)

/-- Consume `:\d+] ` (colon, one or more digits — greedy, the follower `]`
is not a digit — then a closing bracket and a space). -/
def tailColonDigits : List Char → Option (List Char)
  | ':' :: rest =>
    let ds := rest.takeWhile Char.isDigit
    if ds.isEmpty then none
    else
      match rest.drop ds.length with
      | ']' :: ' ' :: rest2 => some rest2
      | _ => none
  | _ => none

/-- Backtracking search for the split of `\S+:\d+] `: leftmost-first greedy
`\S+` tries the longest run of non-space characters first and shrinks until
the rest matches, never below one character. -/
def searchNonspace (l : List Char) : Nat → Option (List Char)
  | 0 => none
  | j + 1 =>
    match tailColonDigits (l.drop (j + 1)) with
    | some rest => some rest
    | none => searchNonspace l j

/-- Consume `\S+:\d+] ` with Go's leftmost-first greedy semantics. -/
def matchTailPart (l : List Char) : Option (List Char) :=
  searchNonspace l (l.takeWhile (fun c => !isGoSpace c)).length

/-- Hand-translation of the anchored Go pattern
`^([IWEF])(\d{2})(\d{2}) (\d{2}):(\d{2}):(\d{2})\.\d+ \d+ \S+:\d+] `
(main.go:50) as a matcher: on a match it returns
`[whole, letter, month, day, hour, minute, second]`, mirroring
`FindStringSubmatch`. -/
def glogFind (s : String) : Option (List String) :=
  match s.toList with
  | [] => none
  | c :: r0 =>
    if c = 'I' || c = 'W' || c = 'E' || c = 'F' then do
      let (mo, r1) ← digit2 r0
      let (da, r2) ← digit2 r1
      let r3 ← expectChar ' ' r2
      let (hh, r4) ← digit2 r3
      let r5 ← expectChar ':' r4
      let (mi, r6) ← digit2 r5
      let r7 ← expectChar ':' r6
      let (ss, r8) ← digit2 r7
      let r9 ← expectChar '.' r8
      let r10 ← digits1 r9
      let r11 ← expectChar ' ' r10
      let r12 ← digits1 r11
      let r13 ← expectChar ' ' r12
      let r14 ← matchTailPart r13
      let l := c :: r0
      some [String.mk (l.take (l.length - r14.length)),
            String.mk [c], mo, da, hh, mi, ss]
    else none

/-- Go `glogRegex` (main.go:50): seven subexp entries (the whole match plus
six unnamed groups), matching via `glogFind`. -/
def glogRegex : Regex :=
  { subexpNames := ["", "", "", "", "", "", ""], find := glogFind }

/-- Go `glogLevels` (main.go:51) as a total function: a Go map read yields
the zero value `""` for any other key. -/
def glogLevels (s : String) : String :=
  if s = "I" then "INFO"
  else if s = "W" then "WARN"
  else if s = "E" then "ERROR"
  else if s = "F" then "FATAL"
  else ""

/-- Go `strings.TrimLeft(s, cutset)`: drop the leading characters of `s`
that occur anywhere in `cutset` (set-membership trim, not prefix removal). -/
def trimLeft (s cutset : String) : String :=
  String.mk (s.toList.dropWhile (fun c => cutset.toList.contains c))

/-- Go `strconv.Atoi` with the error ignored, as in main.go:292-296: the
result is 0 when the string is not a plain digit string (signs and overflow
are unreachable from the two-digit glog captures). -/
def atoi (s : String) : Nat :=
  if s.toList ≠ [] ∧ s.toList.all Char.isDigit then
    s.toList.foldl (fun acc c => acc * 10 + (c.toNat - 48)) 0
  else 0

/-- Zero-pad a number to two digits. -/
def pad2 (n : Nat) : String :=
  if n < 10 then "0" ++ toString n else toString n

/-- Zero-pad a number to four digits. -/
def pad4 (n : Nat) : String :=
  if n < 10 then "000" ++ toString n
  else if n < 100 then "00" ++ toString n
  else if n < 1000 then "0" ++ toString n
  else toString n

/-- Formatting of `time.Date(y, mo, d, h, mi, s, 0, time.UTC)` with
`time.RFC3339`, for in-range components (Go's normalization of out-of-range
components is not modelled; the glog captures used here are two-digit). -/
def rfc3339UTC (year month day hour minute second : Nat) : String :=
  pad4 year ++ "-" ++ pad2 month ++ "-" ++ pad2 day ++ "T" ++ pad2 hour ++ ":" ++
    pad2 minute ++ ":" ++ pad2 second ++ "Z"

/-- Step 1 of processLine (main.go:261-269): seed the record with the
timestamp, default level and message. -/
def seedLog (line : String) (config : Config) (nowFormatted : String) : OrderedMap :=
  let log := NewOrderedMap
  let log := if config.timestampKeySet then log.set config.TimestampKey nowFormatted else log
  let log := if config.levelKeySet then log.set config.LevelKey "INFO" else log
  log.set config.MessageKey line

/-- Step 2 of processLine (main.go:271-276): run the preprocess pattern on
the current message value and store its captures. -/
def preprocessStep (config : Config) (log : OrderedMap) : OrderedMap :=
  if config.preprocessSet then
    match config.preprocessParsed.find (mapGet log.values config.MessageKey) with
    | some m => storeCaptures config.preprocessParsed log m
    | none => log
  else log

/-- Step 3 of processLine (main.go:278-301): glog detection — trim the
matched prefix from the message (character-set trim), set the level from the
severity letter, rebuild the timestamp from the matched components and the
current year. -/
def glogStep (config : Config) (nowYear : Nat) (log : OrderedMap) : OrderedMap :=
  if config.glogSet then
    match glogRegex.find (mapGet log.values config.MessageKey) with
    | some m =>
      let log := log.mapWrite config.MessageKey
        (trimLeft (mapGet log.values config.MessageKey) (m.getD 0 ""))
      let log :=
        if config.levelKeySet then log.mapWrite config.LevelKey (glogLevels (m.getD 1 ""))
        else log
      let log :=
        if config.timestampKeySet then
          log.mapWrite config.TimestampKey
            (rfc3339UTC nowYear (atoi (m.getD 2 "")) (atoi (m.getD 3 ""))
              (atoi (m.getD 4 "")) (atoi (m.getD 5 "")) (atoi (m.getD 6 "")))
        else log
      log
    | none => log
  else log

/-- The record as it stands when the rule loop starts: steps 1-3. -/
def prePattern (line : String) (config : Config) (nowFormatted : String) (nowYear : Nat) :
    OrderedMap :=
  glogStep config nowYear (preprocessStep config (seedLog line config nowFormatted))

/-- Effects of a matching non-discard rule (main.go:310-321): optional level
overwrite (a direct value-map write), named captures, then the static
additions via `Set`. -/
def ruleEffects (config : Config) (pattern : Pattern) (log : OrderedMap) (m : List String) :
    OrderedMap :=
  let log := if pattern.levelSet then log.mapWrite config.LevelKey pattern.Level else log
  let log := storeCaptures pattern.regexParsed log m
  pattern.Add.foldl (fun l kv => l.set kv.fst kv.snd) log

/-- The rule loop of processLine (main.go:304-325): scan the configured
rules in order; the first whose pattern matches the current message either
discards the line (`none`) or contributes its effects, and the scan stops. -/
def applyPatterns (config : Config) : List Pattern → OrderedMap → Option OrderedMap
  | [], log => some log
  | pattern :: rest, log =>
    match pattern.regexParsed.find (mapGet log.values config.MessageKey) with
    | some m =>
      if pattern.Discard then none else some (ruleEffects config pattern log m)
    | none => applyPatterns config rest log

/-- Observable effects of one processLine call: the serialized record
(`none` when the line was discarded), the prometheus label values passed to
`Inc` (when prometheus is enabled), and the statsd tags passed to `Incr`
(when statsd is enabled). -/
structure ProcessResult where
  output : Option OrderedMap
  promInc : Option (List String)
  statsdInc : Option (List String)

/-- Go `processLine` (main.go:260): steps 1-3, the rule loop, then emission
— a discarding match returns before any output or metric. -/
def processLine (line : String) (config : Config) (nowFormatted : String) (nowYear : Nat) :
    ProcessResult :=
  match applyPatterns config config.Patterns (prePattern line config nowFormatted nowYear) with
  | none => ⟨none, none, none⟩
  | some log =>
    ⟨some log,
     if config.prometheus then some (prometheusLabelValues log.values config) else none,
     if config.statsd then some (statsdTags log.values config) else none⟩

/-! Concrete regexes (models of specific compiled Go patterns) and concrete
configurations used to instantiate the claims. -/

/-- Stand-in for Go's nil `*regexp.Regexp` pointer: never consulted when the
corresponding `...Set` flag is false. -/
def nilRegex : Regex := ⟨[], fun _ => none⟩

/-- Matching function of the Go regex consisting of the single literal
character `c`: it matches any subject containing `c`, and the leftmost match
is the character itself, with no capture groups. -/
def litFind (c : Char) (s : String) : Option (List String) :=
  if s.toList.contains c then some [String.mk [c]] else none

/-- Model of the compiled Go pattern `a`. -/
def reLitA : Regex := ⟨[""], litFind 'a'⟩

/-- Model of the compiled Go pattern `b`. -/
def reLitB : Regex := ⟨[""], litFind 'b'⟩

/-- Model of the compiled Go pattern `x`. -/
def reLitX : Regex := ⟨[""], litFind 'x'⟩

/-- Model of the compiled empty Go pattern `""`: it matches the empty string
at the start of every subject, so `FindStringSubmatch` returns `[""]`. -/
def reEmpty : Regex := ⟨[""], fun _ => some [""]⟩

/-- Leftmost-first matching of the Go pattern `(?P<a>x)?y`: at each
position, first try `x` then `y`, else `y` alone; in the second case the
optional named group `a` does not participate in the match and Go's
`FindStringSubmatch` reports `""` for it. -/
def findOptXY : List Char → Option (List String)
  | [] => none
  | 'x' :: 'y' :: _ => some ["xy", "x"]
  | 'y' :: _ => some ["y", ""]
  | _ :: rest => findOptXY rest

/-- Model of the compiled Go pattern `(?P<a>x)?y`. -/
def rxOptXY : Regex := ⟨["", "a"], fun s => findOptXY s.toList⟩

/-- Leftmost-first matching of a Go pattern `(?P<name>[a-z]+)` on ASCII
subjects: the match is the first maximal run of lowercase letters, captured
by the single named group. -/
def lowerRunFind (s : String) : Option (List String) :=
  let rest := s.toList.dropWhile (fun c => !c.isLower)
  let run := rest.takeWhile Char.isLower
  if run.isEmpty then none else some [String.mk run, String.mk run]

/-- Model of the compiled Go pattern `(?P<lvl>[a-z]+)`. -/
def rxWordLvl : Regex := ⟨["", "lvl"], lowerRunFind⟩

/-- Model of the compiled Go pattern `(?P<message>[a-z]+)`: its single
capture group is named like the default message key. -/
def rxWordMessage : Regex := ⟨["", "message"], lowerRunFind⟩

/-- Baseline configuration: everything optional switched off, message key at
its readConfig default `"message"`. -/
def baseConfig : Config :=
  { PrometheusPort := "", prometheus := false, prometheusMetricLabels := []
    StatsdAddress := "", StatsdMetric := "", statsd := false
    Glog := "", glogSet := false
    TimestampKey := "", timestampKeySet := false
    LevelKey := "", levelKeySet := false
    MessageKey := "message", Patterns := []
    Preprocess := "", preprocessSet := false, preprocessParsed := nilRegex }

/-- Rule on pattern `a` adding the static field `ra`. -/
def c1RuleA : Pattern :=
  { RegexStr := "a", regexParsed := reLitA, Discard := false
    Add := [("ra", "1")], Level := "", levelSet := false }

/-- Rule on pattern `b` adding the static field `rb`. -/
def c1RuleB : Pattern :=
  { RegexStr := "b", regexParsed := reLitB, Discard := false
    Add := [("rb", "2")], Level := "", levelSet := false }

/-- Record whose message `"ab"` is matched by both `c1RuleA` and `c1RuleB`. -/
def c1Log : OrderedMap := ⟨["message"], [("message", "ab")]⟩

/-- Rule that matches every line and discards it. -/
def discardRule : Pattern :=
  { RegexStr := "", regexParsed := reEmpty, Discard := true
    Add := [], Level := "", levelSet := false }

/-- Configuration with both metrics backends enabled and a single
discard-everything rule. -/
def c2Config : Config :=
  { baseConfig with
    PrometheusPort := "9091", prometheus := true
    StatsdAddress := "localhost:8125", StatsdMetric := "logs", statsd := true
    Patterns := [discardRule] }

/-- An add map `{a: 1, b: 2}` as Go could iterate it in one order... -/
def c3AddA : List (String × String) := [("a", "1"), ("b", "2")]

/-- ...and the same add map in the other iteration order. -/
def c3AddB : List (String × String) := [("b", "2"), ("a", "1")]

/-- Rule on pattern `x` with the add map in iteration order A. -/
def c3RuleA : Pattern :=
  { RegexStr := "x", regexParsed := reLitX, Discard := false
    Add := c3AddA, Level := "", levelSet := false }

/-- Rule on pattern `x` with the add map in iteration order B. -/
def c3RuleB : Pattern :=
  { RegexStr := "x", regexParsed := reLitX, Discard := false
    Add := c3AddB, Level := "", levelSet := false }

/-- Configuration whose single rule carries the add map in order A. -/
def c3ConfigA : Config := { baseConfig with Patterns := [c3RuleA] }

/-- Configuration whose single rule carries the add map in order B. -/
def c3ConfigB : Config := { baseConfig with Patterns := [c3RuleB] }

/-- Configuration with a cached three-label schema. -/
def c5Config : Config := { baseConfig with prometheusMetricLabels := ["a", "b", "c"] }

/-- Record value map setting only one of the three schema labels. -/
def c5Map : List (String × String) := [("b", "2")]

/-- Record whose message is `"error foo"`. -/
def c6Log : OrderedMap := ⟨["message"], [("message", "error foo")]⟩

/-- Configuration for the glog claims: detection enabled, level key and
timestamp key configured, no rules. -/
def c7Config : Config :=
  { baseConfig with
    Glog := "true", glogSet := true
    TimestampKey := "ts", timestampKeySet := true
    LevelKey := "level", levelKeySet := true }

/-- Input line whose remainder after the glog prefix, `log5 x`, starts with
characters that all occur in the matched prefix text. -/
def c8Line : String := "I0512 10:30:01.123456 123 file.go:10] log5 x"

/-- Configuration whose preprocess pattern has a capture group named exactly
like the message key. -/
def c9Config : Config :=
  { baseConfig with
    Preprocess := "(?P<message>[a-z]+)", preprocessSet := true
    preprocessParsed := rxWordMessage }

/-- Record whose message is `"warn up"`. -/
def c9Log : OrderedMap := ⟨["message"], [("message", "warn up")]⟩

/-- Configuration whose preprocess pattern captures only the field `lvl`. -/
def c9bConfig : Config :=
  { baseConfig with
    Preprocess := "(?P<lvl>[a-z]+)", preprocessSet := true
    preprocessParsed := rxWordLvl }

/-- Rule matching everything and setting a fixed level. -/
def c10Rule : Pattern :=
  { RegexStr := "", regexParsed := reEmpty, Discard := false
    Add := [], Level := "WARN", levelSet := true }

/-- Configuration with statsd enabled, no level key configured, and a single
level-setting rule. -/
def c10Config : Config :=
  { baseConfig with
    StatsdAddress := "localhost:8125", StatsdMetric := "logs", statsd := true
    Patterns := [c10Rule] }

/-! Basic lemmas about the association-list map operations. -/

theorem lookupV_mapInsert_self (l : List (String × String)) (k v : String) :
    lookupV (mapInsert l k v) k = some v := by
  induction l with
  | nil => simp [mapInsert, lookupV]
  | cons kv rest ih =>
    obtain ⟨k₁, v₁⟩ := kv
    by_cases h : k₁ = k
    · simp [mapInsert, lookupV, h]
    · simp [mapInsert, lookupV, h, ih]

theorem lookupV_mapInsert_ne (l : List (String × String)) (k v k₂ : String) (h : k₂ ≠ k) :
    lookupV (mapInsert l k v) k₂ = lookupV l k₂ := by
  have hks : ¬k = k₂ := fun hh => h hh.symm
  induction l with
  | nil =>
    simp only [mapInsert, lookupV]
    rw [if_neg hks]
  | cons kv rest ih =>
    obtain ⟨k₁, v₁⟩ := kv
    by_cases h₁ : k₁ = k
    · subst h₁
      simp only [mapInsert, if_pos rfl, lookupV]
      rw [if_neg hks, if_neg hks]
    · simp only [mapInsert, if_neg h₁, lookupV]
      by_cases h₂ : k₁ = k₂
      · rw [if_pos h₂, if_pos h₂]
      · rw [if_neg h₂, if_neg h₂, ih]

theorem lookupV_mem (l : List (String × String)) (k v : String)
    (h : lookupV l k = some v) : (k, v) ∈ l := by
  induction l with
  | nil => simp [lookupV] at h
  | cons kv rest ih =>
    obtain ⟨k₁, v₁⟩ := kv
    by_cases h₁ : k₁ = k
    · subst h₁
      simp [lookupV] at h
      simp [h]
    · simp [lookupV, h₁] at h
      exact List.mem_cons_of_mem _ (ih h)

theorem lookup_set_self (log : OrderedMap) (k v : String) :
    lookupV (log.set k v).values k = some v :=
  lookupV_mapInsert_self log.values k v

theorem lookup_set_ne (log : OrderedMap) (k v k₂ : String) (h : k₂ ≠ k) :
    lookupV (log.set k v).values k₂ = lookupV log.values k₂ :=
  lookupV_mapInsert_ne log.values k v k₂ h

theorem lookup_mapWrite_self (log : OrderedMap) (k v : String) :
    lookupV (log.mapWrite k v).values k = some v :=
  lookupV_mapInsert_self log.values k v

theorem lookup_mapWrite_ne (log : OrderedMap) (k v k₂ : String) (h : k₂ ≠ k) :
    lookupV (log.mapWrite k v).values k₂ = lookupV log.values k₂ :=
  lookupV_mapInsert_ne log.values k v k₂ h

/-! Lemmas about deduplication and removal, toward the label-schema claims. -/

theorem unique_aux_nodup (l acc : List String) (h : acc.Nodup) :
    (l.foldl (fun acc entry => if entry ∈ acc then acc else acc ++ [entry]) acc).Nodup := by
  induction l generalizing acc with
  | nil => exact h
  | cons e rest ih =>
    simp only [List.foldl_cons]
    by_cases he : e ∈ acc
    · simpa [he] using ih acc h
    · have : (acc ++ [e]).Nodup := by simp [List.nodup_append, h, he]
      simpa [he] using ih (acc ++ [e]) this

theorem unique_nodup (l : List String) : (unique l).Nodup :=
  unique_aux_nodup l [] List.nodup_nil

theorem not_mem_removeElement (l : List String) (x : String) :
    x ∉ removeElement l x := by
  simp [removeElement, List.mem_filter]

theorem nodup_removeElement (l : List String) (x : String) (h : l.Nodup) :
    (removeElement l x).Nodup :=
  h.filter _

theorem dedup_clean (l : List String) (x : String) :
    (removeElement (unique l) x).Nodup ∧ x ∉ removeElement (unique l) x :=
  ⟨nodup_removeElement _ _ (unique_nodup l), not_mem_removeElement _ _⟩

/-! Lemmas about the capture-storing fold. -/

theorem capFold_frame (m : List String) (pairs : List (Nat × String)) (log : OrderedMap)
    (k : String)
    (h : k ∉ (pairs.filter (fun p => decide (p.fst ≠ 0 ∧ p.snd ≠ ""))).map Prod.snd) :
    lookupV (pairs.foldl (capStep m) log).values k = lookupV log.values k := by
  induction pairs generalizing log with
  | nil => rfl
  | cons p rest ih =>
    simp only [List.foldl_cons]
    by_cases hc : p.fst ≠ 0 ∧ p.snd ≠ ""
    · rw [List.filter_cons, if_pos (decide_eq_true hc), List.map_cons, List.mem_cons] at h
      push_neg at h
      rw [ih _ h.2]
      simp only [capStep, if_pos hc]
      exact lookup_set_ne log p.snd _ k h.1
    · rw [List.filter_cons, if_neg (by simpa using hc)] at h
      rw [ih _ h]
      simp [capStep, hc]

theorem capFold_mem (m : List String) (pairs : List (Nat × String)) (log : OrderedMap)
    (i : Nat) (k : String)
    (hmem : (i, k) ∈ pairs) (hi : i ≠ 0) (hk : k ≠ "")
    (hnd : ((pairs.filter (fun p => decide (p.fst ≠ 0 ∧ p.snd ≠ ""))).map Prod.snd).Nodup) :
    lookupV (pairs.foldl (capStep m) log).values k = some (m.getD i "") := by
  induction pairs generalizing log with
  | nil => simp at hmem
  | cons p rest ih =>
    simp only [List.foldl_cons]
    rcases List.mem_cons.mp hmem with heq | hmem₂
    · have hp : p.fst ≠ 0 ∧ p.snd ≠ "" := by rw [← heq]; exact ⟨hi, hk⟩
      rw [List.filter_cons, if_pos (decide_eq_true hp), List.map_cons] at hnd
      have hnotin : p.snd ∉ (rest.filter (fun p => decide (p.fst ≠ 0 ∧ p.snd ≠ ""))).map Prod.snd :=
        (List.nodup_cons.mp hnd).1
      have hksnd : k = p.snd := by rw [← heq]
      have hkni : k ∉ (rest.filter (fun p => decide (p.fst ≠ 0 ∧ p.snd ≠ ""))).map Prod.snd := by
        rw [hksnd]; exact hnotin
      rw [capFold_frame m rest _ k hkni]
      simp only [capStep, if_pos hp]
      rw [← heq]
      exact lookup_set_self log k (m.getD i "")
    · have hnd₂ : ((rest.filter (fun p => decide (p.fst ≠ 0 ∧ p.snd ≠ ""))).map Prod.snd).Nodup := by
        by_cases hp : p.fst ≠ 0 ∧ p.snd ≠ ""
        · rw [List.filter_cons, if_pos (decide_eq_true hp), List.map_cons] at hnd
          exact (List.nodup_cons.mp hnd).2
        · rw [List.filter_cons, if_neg (by simpa using hp)] at hnd
          exact hnd
      exact ih _ hmem₂ hnd₂

theorem storeCaptures_frame (re : Regex) (log : OrderedMap) (m : List String) (k : String)
    (h : k ∉ namedGroups re) :
    lookupV (storeCaptures re log m).values k = lookupV log.values k :=
  capFold_frame m re.subexpNames.enum log k h

theorem empty_not_mem_namedGroups (re : Regex) : "" ∉ namedGroups re := by
  intro h
  simp only [namedGroups, namedPairs, List.mem_map, List.mem_filter] at h
  obtain ⟨p, ⟨_, hp⟩, hsnd⟩ := h
  rw [hsnd] at hp
  simp at hp

/-! Lemmas about the static-additions fold. -/

theorem addFold_frame (adds : List (String × String)) (log : OrderedMap) (k : String)
    (h : k ∉ keys adds) :
    lookupV (adds.foldl (fun l kv => l.set kv.fst kv.snd) log).values k =
      lookupV log.values k := by
  induction adds generalizing log with
  | nil => rfl
  | cons kv rest ih =>
    simp only [keys, List.map_cons, List.mem_cons, not_or] at h
    simp only [List.foldl_cons]
    rw [ih _ (by simpa [keys] using h.2)]
    exact lookup_set_ne log kv.fst kv.snd k h.1

/-! First-match characterization of the rule loop. -/

theorem applyPatterns_split (config : Config) (ps₁ : List Pattern) (p : Pattern)
    (ps₂ : List Pattern) (log : OrderedMap) (m : List String)
    (h₁ : ∀ q ∈ ps₁, q.regexParsed.find (mapGet log.values config.MessageKey) = none)
    (h₂ : p.regexParsed.find (mapGet log.values config.MessageKey) = some m) :
    applyPatterns config (ps₁ ++ p :: ps₂) log =
      if p.Discard then none else some (ruleEffects config p log m) := by
  induction ps₁ with
  | nil => simp [applyPatterns, h₂]
  | cons q qs ih =>
    have hq : q.regexParsed.find (mapGet log.values config.MessageKey) = none :=
      h₁ q (List.mem_cons_self q qs)
    have hqs : ∀ r ∈ qs, r.regexParsed.find (mapGet log.values config.MessageKey) = none :=
      fun r hr => h₁ r (List.mem_cons_of_mem q hr)
    simpa [applyPatterns, hq] using ih hqs

/-! Claim theorems. -/

/-- C1: for every line and rule list, at most one rule's effects are applied
to the record: the rules are scanned in configured order and scanning stops
at the first rule whose pattern matches the current message value, so the
result does not depend on the rules after the first match, even if they
would also match. -/
theorem c1_first_match_wins (config : Config) (ps₁ : List Pattern) (p : Pattern)
    (ps₂ : List Pattern) (log : OrderedMap) (m : List String)
    (h₁ : ∀ q ∈ ps₁, q.regexParsed.find (mapGet log.values config.MessageKey) = none)
    (h₂ : p.regexParsed.find (mapGet log.values config.MessageKey) = some m) :
    applyPatterns config (ps₁ ++ p :: ps₂) log = applyPatterns config [p] log :=
  (applyPatterns_split config ps₁ p ps₂ log m h₁ h₂).trans
    (applyPatterns_split config [] p [] log m
      (fun q hq => absurd hq (List.not_mem_nil q)) h₂).symm

/-- Witness for C1: both `c1RuleA` and `c1RuleB` match the message `ab`, and
the scan over `[c1RuleA, c1RuleB]` behaves exactly like the scan over
`[c1RuleA]` alone — only the first rule's effects appear. -/
theorem c1_first_match_wins_witness :
    c1RuleB.regexParsed.find (mapGet c1Log.values baseConfig.MessageKey) = some ["b"] ∧
    applyPatterns baseConfig [c1RuleA, c1RuleB] c1Log = applyPatterns baseConfig [c1RuleA] c1Log :=
  ⟨rfl, c1_first_match_wins baseConfig [] c1RuleA [c1RuleB] c1Log ["a"]
    (fun q hq => absurd hq (List.not_mem_nil q)) rfl⟩

/-- C2: if the first matching rule has its discard flag set, the pipeline
stops: no output record, no prometheus increment, no statsd increment. -/
theorem c2_discard_suppresses_everything (line nowFormatted : String) (nowYear : Nat)
    (config : Config) (ps₁ : List Pattern) (p : Pattern) (ps₂ : List Pattern) (m : List String)
    (hpat : config.Patterns = ps₁ ++ p :: ps₂)
    (h₁ : ∀ q ∈ ps₁, q.regexParsed.find
      (mapGet (prePattern line config nowFormatted nowYear).values config.MessageKey) = none)
    (h₂ : p.regexParsed.find
      (mapGet (prePattern line config nowFormatted nowYear).values config.MessageKey) = some m)
    (hd : p.Discard = true) :
    processLine line config nowFormatted nowYear = ⟨none, none, none⟩ := by
  have hsplit := applyPatterns_split config ps₁ p ps₂
    (prePattern line config nowFormatted nowYear) m h₁ h₂
  have hnone : applyPatterns config (ps₁ ++ p :: ps₂)
      (prePattern line config nowFormatted nowYear) = none := by
    rw [hsplit, hd]
    rfl
  simp [processLine, hpat, hnone]

/-- Witness for C2: under `c2Config` (both metrics backends on, one
discard-everything rule) the line `x` produces no output and no metric
increment at all. -/
theorem c2_discard_suppresses_everything_witness :
    processLine "x" c2Config "now" 2026 = ⟨none, none, none⟩ :=
  c2_discard_suppresses_everything "x" "now" 2026 c2Config [] discardRule [] [""] rfl
    (fun q hq => absurd hq (List.not_mem_nil q)) rfl rfl

/-- C3 exhibit: the same add map `{a: 1, b: 2}`, presented in the two
iteration orders Go's randomized map range can produce, yields two different
label schemas — the derivation does not sort the add keys, so it is not
deterministic across runs, and the list registered at main.go:76 can differ
from the list cached at main.go:179. -/
theorem c3_add_key_order_dependence :
    c3AddA.Perm c3AddB ∧
    prometheusMetricLabels c3ConfigA ≠ prometheusMetricLabels c3ConfigB := by
  constructor
  · exact List.Perm.swap ("b", "2") ("a", "1") []
  · decide

/-- C4: for every configuration, the derived label schema has no duplicate
names and does not contain the configured message key. -/
theorem c4_schema_nodup_and_no_message_key (config : Config) :
    (prometheusMetricLabels config).Nodup ∧
    config.MessageKey ∉ prometheusMetricLabels config :=
  dedup_clean _ _

/-- C5: the value array built for the fixed-arity backend has exactly one
entry per schema label, and its i-th entry is the record's value for the
i-th schema name when present and the empty string otherwise. -/
theorem c5_label_values_arity (labelMap : List (String × String)) (config : Config) :
    (prometheusLabelValues labelMap config).length = config.prometheusMetricLabels.length ∧
    ∀ i, i < config.prometheusMetricLabels.length →
      (prometheusLabelValues labelMap config).getD i "" =
        match lookupV labelMap (config.prometheusMetricLabels.getD i "") with
        | some v => v
        | none => "" := by
  constructor
  · simp [prometheusLabelValues]
  · intro i hi
    have hsome : config.prometheusMetricLabels[i]? = some (config.prometheusMetricLabels[i]) :=
      List.getElem?_eq_getElem hi
    have hgd : config.prometheusMetricLabels.getD i "" = config.prometheusMetricLabels[i] := by
      rw [List.getD_eq_getElem?_getD, hsome]; rfl
    rw [hgd]
    simp only [prometheusLabelValues]
    rw [List.getD_eq_getElem?_getD, List.getElem?_map, hsome, Option.map_some',
      Option.getD_some]
    cases hl : lookupV labelMap (config.prometheusMetricLabels[i]) <;> simp [hl]

/-- Witness for C5: with the three-label schema of `c5Config` and a record
that only sets `b`, entry 1 of the value array is that value. -/
theorem c5_label_values_arity_witness :
    1 < c5Config.prometheusMetricLabels.length ∧
    (prometheusLabelValues c5Map c5Config).getD 1 "" =
      match lookupV c5Map (c5Config.prometheusMetricLabels.getD 1 "") with
      | some v => v
      | none => "" :=
  ⟨by decide, (c5_label_values_arity c5Map c5Config).2 1 (by decide)⟩

/-- C6 counterexample: for the Go pattern `(?P<a>x)?y` on subject `y`, the
named group `a` does not participate in the match (the subject contains no
`x`), yet `storeCaptures` sets the record key `a` (to the empty string Go
reports for it) — it is not left unset as the claim states. -/
theorem c6_counterexample :
    rxOptXY.find "y" = some ["y", ""] ∧
    lookupV NewOrderedMap.values "a" = none ∧
    lookupV (storeCaptures rxOptXY NewOrderedMap ["y", ""]).values "a" = some "" :=
  ⟨rfl, rfl, rfl⟩

/-- C6 amended: capture extraction is a no-op when the pattern does not
match; when it matches, `Record.set(name, match[i])` is performed for every
named capture group — with a group that did not participate contributing the
empty string Go reports for it — and unnamed groups (and all other keys) are
left untouched. Go rejects duplicate capture-group names, hence the
`Nodup` hypothesis. -/
theorem c6_capture_extraction (re : Regex) (log : OrderedMap) (m : List String)
    (hnd : (namedGroups re).Nodup) :
    (∀ config : Config, config.preprocessParsed = re →
      re.find (mapGet log.values config.MessageKey) = none →
      preprocessStep config log = log) ∧
    (∀ k, k ∉ namedGroups re →
      lookupV (storeCaptures re log m).values k = lookupV log.values k) ∧
    (∀ i k, (i, k) ∈ re.subexpNames.enum → i ≠ 0 → k ≠ "" →
      lookupV (storeCaptures re log m).values k = some (m.getD i "")) := by
  refine ⟨?_, ?_, ?_⟩
  · intro config hre hnone
    unfold preprocessStep
    by_cases hp : config.preprocessSet
    · simp [hp, hre, hnone]
    · simp [hp]
  · exact fun k hk => storeCaptures_frame re log m k hk
  · intro i k hmem hi hk
    exact capFold_mem m re.subexpNames.enum log i k hmem hi hk hnd

/-- Witness for C6 amended: the pattern `(?P<lvl>[a-z]+)` on the message
`error foo` stores `lvl ↦ error`. -/
theorem c6_capture_extraction_witness :
    (namedGroups rxWordLvl).Nodup ∧
    lookupV (storeCaptures rxWordLvl c6Log ["error", "error"]).values "lvl" =
      some (["error", "error"].getD 1 "") :=
  ⟨by decide,
   (c6_capture_extraction rxWordLvl c6Log ["error", "error"] (by decide)).2.2 1 "lvl"
     (by decide) (by decide) (by decide)⟩

/-- C7: with glog detection on and level and timestamp keys configured, the
line `I0512 10:30:01.123456 123 file.go:10] hello` yields level `INFO`,
message `hello`, and a timestamp built from the current year with month 5,
day 12, hour 10, minute 30, second 1. -/
theorem c7_glog_detection (nowFormatted : String) (nowYear : Nat) :
    ∃ log,
      (processLine "I0512 10:30:01.123456 123 file.go:10] hello" c7Config
        nowFormatted nowYear).output = some log ∧
      lookupV log.values "level" = some "INFO" ∧
      lookupV log.values "message" = some "hello" ∧
      lookupV log.values "ts" = some (rfc3339UTC nowYear 5 12 10 30 1) :=
  ⟨_, rfl, rfl, rfl, rfl⟩

/-- C8: glog prefix stripping is a character-set trim, not exact prefix
removal: on `c8Line` the detector matches exactly the prefix ending in `] `,
the remainder is `log5 x`, yet the message value comes out as `x` — the
leading `log5 ` is stripped as well because those characters all occur in
the matched prefix text. -/
theorem c8_trim_is_set_membership :
    (glogRegex.find c8Line).map (fun m => m.getD 0 "") =
      some "I0512 10:30:01.123456 123 file.go:10] " ∧
    "I0512 10:30:01.123456 123 file.go:10] " ++ "log5 x" = c8Line ∧
    (∃ log, (processLine c8Line c7Config "now" 2026).output = some log ∧
      lookupV log.values "message" = some "x") ∧
    "x" ≠ "log5 x" :=
  ⟨rfl, rfl, ⟨_, rfl, rfl⟩, by decide⟩

/-- C9 counterexample: a preprocess pattern whose capture group is named
exactly like the message key does modify the message value: on the line
`hello world` with pattern `(?P<message>[a-z]+)` the message becomes
`hello`. -/
theorem c9_counterexample :
    lookupV (seedLog "hello world" c9Config "now").values "message" = some "hello world" ∧
    lookupV (preprocessStep c9Config (seedLog "hello world" c9Config "now")).values "message" =
      some "hello" :=
  ⟨rfl, rfl⟩

/-- C9 amended: the preprocessing step leaves the record's message-key value
unchanged provided no capture group of the preprocess pattern is named
exactly the message key. -/
theorem c9_preprocess_preserves_message (config : Config) (log : OrderedMap)
    (h : config.MessageKey ∉ namedGroups config.preprocessParsed) :
    lookupV (preprocessStep config log).values config.MessageKey =
      lookupV log.values config.MessageKey := by
  unfold preprocessStep
  by_cases hp : config.preprocessSet
  · simp only [if_pos hp]
    cases hfind : config.preprocessParsed.find (mapGet log.values config.MessageKey) with
    | none => rfl
    | some m => exact storeCaptures_frame _ _ _ _ h
  · simp [hp]

/-- Witness for C9 amended: the preprocess pattern `(?P<lvl>[a-z]+)` leaves
the message of `c9Log` unchanged. -/
theorem c9_preprocess_preserves_message_witness :
    lookupV (preprocessStep c9bConfig c9Log).values c9bConfig.MessageKey =
      lookupV c9Log.values c9bConfig.MessageKey :=
  c9_preprocess_preserves_message c9bConfig c9Log (by decide)

/-- C10: with no level key configured (so `LevelKey` is the empty string), a
matching rule that specifies a level writes it under the empty-string key of
the record's underlying value map, and the statsd adapter then emits the tag
`:<level>` for it. -/
theorem c10_empty_level_key_tag (line nowFormatted : String) (nowYear : Nat)
    (config : Config) (ps₁ : List Pattern) (p : Pattern) (ps₂ : List Pattern) (m : List String)
    (hpat : config.Patterns = ps₁ ++ p :: ps₂)
    (h₁ : ∀ q ∈ ps₁, q.regexParsed.find
      (mapGet (prePattern line config nowFormatted nowYear).values config.MessageKey) = none)
    (h₂ : p.regexParsed.find
      (mapGet (prePattern line config nowFormatted nowYear).values config.MessageKey) = some m)
    (hd : p.Discard = false)
    (hlv : p.levelSet = true)
    (hlks : config.levelKeySet = false)
    (hlk : config.LevelKey = "")
    (hmk : config.MessageKey ≠ "")
    (hstatsd : config.statsd = true)
    (hadd : "" ∉ keys p.Add) :
    ∃ log, (processLine line config nowFormatted nowYear).output = some log ∧
      lookupV log.values "" = some p.Level ∧
      ∃ tags, (processLine line config nowFormatted nowYear).statsdInc = some tags ∧
        (":" ++ p.Level) ∈ tags := by
  have hsplit := applyPatterns_split config ps₁ p ps₂
    (prePattern line config nowFormatted nowYear) m h₁ h₂
  have hsome : applyPatterns config (ps₁ ++ p :: ps₂)
      (prePattern line config nowFormatted nowYear) =
      some (ruleEffects config p (prePattern line config nowFormatted nowYear) m) := by
    rw [hsplit, hd]
    rfl
  have hlook : lookupV (ruleEffects config p
      (prePattern line config nowFormatted nowYear) m).values "" = some p.Level := by
    simp only [ruleEffects, hlv]
    rw [addFold_frame _ _ _ hadd,
      storeCaptures_frame _ _ _ _ (empty_not_mem_namedGroups p.regexParsed), hlk]
    exact lookup_mapWrite_self _ "" p.Level
  refine ⟨ruleEffects config p (prePattern line config nowFormatted nowYear) m, ?_, hlook, ?_⟩
  · simp [processLine, hpat, hsome]
  · refine ⟨statsdTags (ruleEffects config p
      (prePattern line config nowFormatted nowYear) m).values config, ?_, ?_⟩
    · simp [processLine, hpat, hsome, hstatsd]
    · have hmem : ("", p.Level) ∈ (ruleEffects config p
          (prePattern line config nowFormatted nowYear) m).values :=
        lookupV_mem _ _ _ hlook
      have hne : ("" : String) ≠ config.MessageKey := fun hh => hmk hh.symm
      refine List.mem_map.mpr ⟨("", p.Level), List.mem_filter.mpr ⟨hmem, ?_⟩, rfl⟩
      exact decide_eq_true hne

/-- Witness for C10: under `c10Config` (no level key, statsd on, one rule
setting level `WARN`) processing any line emits the tag `:WARN`. -/
theorem c10_empty_level_key_tag_witness :
    ∃ log, (processLine "boom" c10Config "now" 2026).output = some log ∧
      lookupV log.values "" = some c10Rule.Level ∧
      ∃ tags, (processLine "boom" c10Config "now" 2026).statsdInc = some tags ∧
        (":" ++ c10Rule.Level) ∈ tags :=
  c10_empty_level_key_tag "boom" "now" 2026 c10Config [] c10Rule [] [""] rfl
    (fun q hq => absurd hq (List.not_mem_nil q)) rfl rfl rfl rfl rfl (by decide) rfl (by decide)

end Logrecycler
